import Mathlib

/-!
Verification of the agent team orchestration engine.

Shallow embedding of the backend services of the repository
(services/task_dispatcher.py, services/team_file_watcher.py,
services/agent_orchestrator.py, services/claude_adapter.py,
services/git_workspace.py, services/unified_orchestrator.py,
services/team_manager.py) together with proofs about the embedded
operations.  Python dictionaries that preserve insertion order are
modelled as association lists, sets of ids as deduplicated lists, and
mutable registries as explicit record states threaded through the
operations.
-/

namespace ITHeroes

/-! ## Data model (models/agent.py, models/session.py, models/task.py) -/

/-- AgentRole enumeration from models/agent.py. -/
inductive AgentRole where
  | lead
  | backend
  | frontend
  | qa
  | docs
  | security
  | custom
deriving DecidableEq, Repr

/-- TaskStatus enumeration from models/task.py. -/
inductive TaskStatus where
  | todo
  | inProgress
  | blocked
  | review
  | done
  | failed
deriving DecidableEq, Repr

/-- SessionStatus enumeration from models/session.py. -/
inductive SessionStatus where
  | starting
  | running
  | idle
  | stopped
  | failed
deriving DecidableEq, Repr

/-- The fields of an Agent record used by the dispatcher. -/
structure AgentR where
  id : Nat
  role : AgentRole
deriving DecidableEq, Repr

/-- The fields of a Task record used by the dispatcher. -/
structure TaskR where
  id : Nat
  title : String
deriving DecidableEq, Repr

/-! ## String utilities

Python tests membership of a keyword in a title with the substring
operator on the lowercased title; we embed that as an explicit
substring check on character lists. -/

/-- Lowercasing a string, as title.lower() does for ASCII text. -/
def strLower (s : String) : String := (s.data.map Char.toLower).asString

/-- Boolean check that the first character list is a prefix of the second. -/
def charsPrefix : List Char → List Char → Bool
  | [], _ => true
  | _ :: _, [] => false
  | a :: as, b :: bs => a == b && charsPrefix as bs

/-- Boolean check that the first character list occurs contiguously in the second. -/
def charsInfix (n : List Char) : List Char → Bool
  | [] => n.isEmpty
  | b :: bs => charsPrefix n (b :: bs) || charsInfix n bs

/-- Python's keyword in title_lower substring test from
TaskDispatcher._find_best_agent. -/
def containsKeyword (kw title : String) : Bool :=
  charsInfix kw.data (strLower title).data

/-! ## Task dispatcher (services/task_dispatcher.py) -/

/-- ROLE_MAP from TaskDispatcher: a Python dict iterated in insertion
order, so embedded as an ordered association list. -/
def roleMap : List (String × AgentRole) :=
  [ ("backend", AgentRole.backend)
  , ("api", AgentRole.backend)
  , ("server", AgentRole.backend)
  , ("frontend", AgentRole.frontend)
  , ("client", AgentRole.frontend)
  , ("renderer", AgentRole.frontend)
  , ("ui", AgentRole.frontend)
  , ("test", AgentRole.qa)
  , ("spec", AgentRole.qa)
  , ("qa", AgentRole.qa)
  , ("doc", AgentRole.docs)
  , ("guide", AgentRole.docs)
  , ("security", AgentRole.security) ]

/-- Preferred role derivation in TaskDispatcher._find_best_agent: scan
ROLE_MAP in order and take the role of the first keyword contained in
the lowercased title.  (The source skips the scan for an empty title;
no keyword occurs in the empty string, so the result is the same.) -/
def preferredRole (title : String) : Option AgentRole :=
  (roleMap.find? (fun kv => containsKeyword kv.fst title)).map Prod.snd

/-- The role-matching candidate pool of _find_best_agent: agents of
the preferred role, the lead excluded. -/
def roleCandidates (r : AgentRole) (agents : List AgentR) : List AgentR :=
  agents.filter (fun a => a.role == r && !(a.role == AgentRole.lead))

/-- The fallback pool of _find_best_agent: every non-lead agent. -/
def nonLeadAgents (agents : List AgentR) : List AgentR :=
  agents.filter (fun a => !(a.role == AgentRole.lead))

/-- The candidate pool of TaskDispatcher._find_best_agent: the
role-matching pool when a preferred role was derived, with the
non-lead pool as fallback when it is empty. -/
def candidatesFor (t : TaskR) (agents : List AgentR) : List AgentR :=
  let base :=
    match preferredRole t.title with
    | some r => roleCandidates r agents
    | none => []
  if base.isEmpty then nonLeadAgents agents else base

/-- Head of a stable sort by load: the first element of the list
attaining the minimal load.  Python's candidates.sort(key=load) is
stable, so candidates[0] is exactly this element. -/
def pickFirstMin (load : Nat → Nat) (a : AgentR) (rest : List AgentR) : AgentR :=
  rest.foldl (fun best b => if load b.id < load best.id then b else best) a

/-- TaskDispatcher._find_best_agent. -/
def findBestAgent (t : TaskR) (agents : List AgentR) (load : Nat → Nat) :
    Option AgentR :=
  match candidatesFor t agents with
  | [] => none
  | c :: cs => some (pickFirstMin load c cs)

/-- One entry of the list auto_assign returns. -/
structure Assignment where
  taskId : Nat
  agent : AgentR
deriving DecidableEq, Repr

/-- The in-batch load increment load_map[agent.id] += 1. -/
def bump (load : Nat → Nat) (i : Nat) : Nat → Nat :=
  fun j => if j == i then load j + 1 else load j

/-- The assignment loop of TaskDispatcher.auto_assign over the
unassigned todo tasks, threading the in-memory load counter. -/
def autoAssignGo (agents : List AgentR) (leadA : Option AgentR) :
    List TaskR → (Nat → Nat) → List Assignment
  | [], _ => []
  | t :: ts, load =>
    match findBestAgent t agents load with
    | some a => ⟨t.id, a⟩ :: autoAssignGo agents leadA ts (bump load a.id)
    | none =>
      match leadA with
      | some l => ⟨t.id, l⟩ :: autoAssignGo agents leadA ts (bump load l.id)
      | none => autoAssignGo agents leadA ts load

/-- TaskDispatcher.auto_assign, taking the project's agents, its
unassigned todo tasks and the initial load map built from active
tasks.  Returns the assignment list. -/
def autoAssign (agents : List AgentR) (tasks : List TaskR) (load : Nat → Nat) :
    List Assignment :=
  if agents.isEmpty then []
  else autoAssignGo agents (agents.find? (fun a => a.role == AgentRole.lead)) tasks load

/-- The initial load map of auto_assign: for each agent id, the number
of in_progress/review tasks assigned to it (ids outside the agent set
stay at zero, as in the dict built from the agents list). -/
def baseLoad (agents : List AgentR) (active : List (Option Nat)) : Nat → Nat :=
  fun i =>
    if agents.any (fun a => a.id == i) then
      (active.filter (fun o => o == some i)).length
    else 0

/-- The agent a stands first in cs among those of minimal load: it
occurs in cs, nothing in cs has smaller load, and everything before
its occurrence has strictly larger load.  This is exactly the head of
a stable sort of cs by load. -/
def FirstMin (cs : List AgentR) (load : Nat → Nat) (a : AgentR) : Prop :=
  ∃ pre suf, cs = pre ++ a :: suf ∧
    (∀ b ∈ pre, load a.id < load b.id) ∧
    (∀ b ∈ cs, load a.id ≤ load b.id)

/-- The per-item choice property of the claim: whenever the title
yields a preferred role with a nonempty non-lead pool of that role,
the chosen agent has that role and is the stable minimum-load pick
from that pool. -/
def ChoiceOK (agents : List AgentR) (load : Nat → Nat) (t : TaskR) (a : AgentR) :
    Prop :=
  ∀ r, preferredRole t.title = some r → roleCandidates r agents ≠ [] →
    a.role = r ∧ FirstMin (roleCandidates r agents) load a

/-- The batch property of the claim: every task gets an assignment in
input order, each choice satisfies ChoiceOK at the load accumulated so
far, and each assignment bumps the load for later picks. -/
def BatchOK (agents : List AgentR) :
    (Nat → Nat) → List TaskR → List Assignment → Prop
  | _, [], asgs => asgs = []
  | load, t :: ts, asgs =>
    ∃ a rest, asgs = ⟨t.id, a⟩ :: rest ∧ a ∈ agents ∧ ChoiceOK agents load t a ∧
      BatchOK agents (bump load a.id) ts rest

/-! ## External state synchronizer (services/team_file_watcher.py) -/

/-- One roster entry of the side-channel config.json members list. -/
structure Member where
  agentId : String
  name : String
deriving DecidableEq, Repr

/-- An observation of the roster file at one poll: its modification
time and the parse result (none models a json.loads failure). -/
structure ConfigFile where
  mtime : Nat
  parse : Option (List Member)
deriving Repr

/-- The watcher's roster tracking state: _config_mtime and
_known_members. -/
structure WatcherConfigState where
  configMtime : Nat
  knownMembers : List String
deriving DecidableEq, Repr

/-- Result of one _poll_config tick: new state plus the
memberJoined/memberLeft callbacks fired. -/
structure ConfigPollResult where
  state : WatcherConfigState
  joined : List Member
  lefts : List String
deriving DecidableEq, Repr

/-- Deduplication keeping first occurrences, used to embed the Python
set comprehension over member ids as an ordered list. -/
def dedupIds : List String → List String
  | [] => []
  | x :: xs => x :: (dedupIds xs).filter (fun y => !(y == x))

/-- Set difference on id lists, embedding Python set subtraction. -/
def setDiff (xs ys : List String) : List String :=
  xs.filter (fun x => !(ys.contains x))

/-- TeamFileWatcher._poll_config: skip when the file is absent or the
modification time did not advance; record the new mtime before
parsing (so a parse failure still advances _config_mtime); otherwise
fire one memberJoined per id in the new set but not the known set
(looked up in the members dict, where a later duplicate wins) and one
memberLeft per id in the known set but not the new set, then replace
the known set. -/
def pollConfig (st : WatcherConfigState) (file : Option ConfigFile) :
    ConfigPollResult :=
  match file with
  | none => ⟨st, [], []⟩
  | some f =>
    if f.mtime ≤ st.configMtime then ⟨st, [], []⟩
    else
      match f.parse with
      | none => ⟨{ st with configMtime := f.mtime }, [], []⟩
      | some ms =>
        let currentIds := dedupIds (ms.map (fun m => m.agentId))
        let joinedIds := setDiff currentIds st.knownMembers
        let joined :=
          joinedIds.filterMap (fun i => ms.reverse.find? (fun m => m.agentId == i))
        let lefts := setDiff st.knownMembers currentIds
        ⟨⟨f.mtime, currentIds⟩, joined, lefts⟩

/-- An observation of one inbox file at one poll: its stem name,
modification time and parse result (none models a json.loads failure
or a non-list payload). -/
structure InboxFile where
  name : String
  mtime : Nat
  parse : Option (List String)
deriving Repr

/-- The watcher's inbox tracking state: _inbox_mtimes and
_inbox_lengths (dicts with default 0). -/
structure InboxState where
  mtimes : List (String × Nat)
  lengths : List (String × Nat)
deriving DecidableEq, Repr

/-- Dictionary lookup with default 0, as dict.get(name, 0). -/
def lookupD (l : List (String × Nat)) (k : String) : Nat :=
  ((l.find? (fun p => p.fst == k)).map Prod.snd).getD 0

/-- Dictionary update, replacing the binding for the key or appending it. -/
def setA : List (String × Nat) → String → Nat → List (String × Nat)
  | [], k, v => [(k, v)]
  | p :: ps, k, v => if p.fst == k then (k, v) :: ps else p :: setA ps k v

/-- Result of polling one inbox file: new state plus the
inboxMessage callbacks fired, as (inbox name, message) pairs. -/
structure InboxPollResult where
  state : InboxState
  fired : List (String × String)
deriving DecidableEq, Repr

/-- TeamFileWatcher._poll_inboxes for one inbox file: skip when the
modification time did not advance; record it; skip a bad parse; fire
once per message past the previously observed length (the slice
messages[prev_len:]) and store the new length. -/
def pollInboxFile (st : InboxState) (f : InboxFile) : InboxPollResult :=
  if f.mtime ≤ lookupD st.mtimes f.name then ⟨st, []⟩
  else
    let st1 : InboxState := { st with mtimes := setA st.mtimes f.name f.mtime }
    match f.parse with
    | none => ⟨st1, []⟩
    | some msgs =>
      let prevLen := lookupD st.lengths f.name
      let newMsgs := msgs.drop prevLen
      ⟨{ st1 with lengths := setA st1.lengths f.name msgs.length },
        newMsgs.map (fun m => (f.name, m))⟩

/-- TeamFileWatcher._poll_inboxes over every inbox file of one tick. -/
def pollInboxes (st : InboxState) (files : List InboxFile) : InboxPollResult :=
  files.foldl
    (fun acc f =>
      let r := pollInboxFile acc.state f
      ⟨r.state, acc.fired ++ r.fired⟩)
    ⟨st, []⟩

/-! ## Session supervisor (services/agent_orchestrator.py and
services/claude_adapter.py) -/

/-- One parsed event of the worker's output stream, as yielded by
ClaudeCodeAdapter.stream_output: an event type string and content. -/
structure StreamEv where
  etype : String
  content : String
deriving DecidableEq, Repr

/-- Substring test on raw (not lowercased) content, as Python's
substring operator used for the sentinel phrases. -/
def containsSub (needle hay : String) : Bool :=
  charsInfix needle.data hay.data

/-- The completed_ok flag of AgentOrchestrator._monitor_agent after
consuming the whole stream: a complete event sets it, an error event
clears it, and a sentinel phrase (Task completed or DONE) in any
other event's content sets it. -/
def streamCompletedOk (events : List StreamEv) : Bool :=
  events.foldl
    (fun ok e =>
      if e.etype == "complete" then true
      else if e.etype == "error" then false
      else if containsSub "Task completed" e.content || containsSub "DONE" e.content then
        true
      else ok)
    false

/-- The subprocess record kept by ClaudeCodeAdapter._processes: only
its returncode matters for liveness. -/
structure ProcR where
  returncode : Option Int
deriving DecidableEq, Repr

/-- ClaudeCodeAdapter.is_running: the process is registered and its
returncode is not yet set. -/
def isRunning (proc : Option ProcR) : Bool :=
  match proc with
  | none => false
  | some p => p.returncode.isNone

/-- The terminal outcome _monitor_agent writes after the stream ends. -/
structure MonitorOutcome where
  taskStatus : TaskStatus
  sessionStatus : SessionStatus
  committed : Bool
  failureDetail : Option String
deriving DecidableEq, Repr

/-- The final-status branch of AgentOrchestrator._monitor_agent once
the stream has ended: when completed_ok holds or the process is no
longer running, commit the worktree and move the task to review and
the session to idle; otherwise move both to failed and attach the
captured stderr truncated to 200 characters. -/
def monitorAgentFinal (events : List StreamEv) (proc : Option ProcR)
    (stderrOut : String) : MonitorOutcome :=
  if streamCompletedOk events || !(isRunning proc) then
    ⟨TaskStatus.review, SessionStatus.idle, true, none⟩
  else
    ⟨TaskStatus.failed, SessionStatus.failed, false,
      some (stderrOut.data.take 200).asString⟩

/-! ## Operator stop (AgentOrchestrator.stop_agent and
ClaudeCodeAdapter.stop_session) -/

/-- A signal sent during termination. -/
inductive SigAction where
  | sigterm
  | sigkill
deriving DecidableEq, Repr

/-- The subprocess as seen by stop_session: its returncode if it has
already exited, whether it exits within the 10 second graceful bound
after SIGTERM, and the exit code wait() then reports. -/
structure StopProc where
  returncode : Option Int
  gracefulWithin : Bool
  waitCode : Int
deriving DecidableEq, Repr

/-- Association-list removal (dict.pop). -/
def removeA {α : Type} (l : List (Nat × α)) (k : Nat) : List (Nat × α) :=
  l.filter (fun kv => !(kv.fst == k))

/-- Association-list lookup (dict.get). -/
def lookupA {α : Type} (l : List (Nat × α)) (k : Nat) : Option α :=
  (l.find? (fun kv => kv.fst == k)).map Prod.snd

/-- ClaudeCodeAdapter.stop_session: pop the process (absent gives
exit code -1); an already exited process is left alone; otherwise
SIGTERM the group, and SIGKILL only if it does not exit within the
10 second bound.  Returns the remaining process map, the signals
sent, and the reported exit code. -/
def stopSession (procs : List (Nat × StopProc)) (agentId : Nat) :
    List (Nat × StopProc) × List SigAction × Int :=
  match lookupA procs agentId with
  | none => (procs, [], -1)
  | some p =>
    let rest := removeA procs agentId
    match p.returncode with
    | some c => (rest, [], c)
    | none =>
      if p.gracefulWithin then (rest, [SigAction.sigterm], p.waitCode)
      else (rest, [SigAction.sigterm, SigAction.sigkill], p.waitCode)

/-- One session row as stop_agent reads it. -/
structure SessionRow where
  agentId : Nat
  status : SessionStatus
deriving DecidableEq, Repr

/-- The orchestrator state stop_agent touches: the monitoring task
registry, the adapter's process map, and the session rows. -/
structure StopState where
  monitors : List (Nat × Bool)
  procs : List (Nat × StopProc)
  sessions : List SessionRow
deriving DecidableEq, Repr

/-- The session rewrite of AgentOrchestrator.stop_agent: only rows of
this agent whose status is running are set to stopped. -/
def stopMark (agentId : Nat) (s : SessionRow) : SessionRow :=
  if s.agentId == agentId && s.status == SessionStatus.running then
    { s with status := SessionStatus.stopped }
  else s

/-- AgentOrchestrator.stop_agent: pop and cancel the monitoring task,
stop the adapter session, then mark this agent's running sessions
stopped.  Returns the new state and the signals sent. -/
def stopAgent (st : StopState) (agentId : Nat) : StopState × List SigAction :=
  (⟨ removeA st.monitors agentId
   , (stopSession st.procs agentId).fst
   , st.sessions.map (stopMark agentId) ⟩,
   (stopSession st.procs agentId).snd.fst)

/-! ## Workspace manager (services/git_workspace.py) -/

/-- Branch name produced by GitWorkspaceManager.create_worktree:
chibi/{project_name}/agent-{agent_id}. -/
def createWorktreeBranch (projectName : String) (agentId : Nat) : String :=
  "chibi/" ++ projectName ++ "/agent-" ++ toString agentId

/-- Worktree directory produced by create_worktree (and used by
cleanup_worktree): os.path.join(repo_path, worktree_base,
agent-{agent_id}). -/
def worktreeDir (repoPath worktreeBase : String) (agentId : Nat) : String :=
  repoPath ++ "/" ++ worktreeBase ++ "/agent-" ++ toString agentId

/-- Branch name GitWorkspaceManager.create_merge_plan diffs for each
listed agent: the project segment is the hard-coded literal project,
not the team label the worktree was created with. -/
def mergePlanBranch (agentId : Nat) : String :=
  "chibi/project/agent-" ++ toString agentId

/-- A read-only view of the repository for create_merge_plan: the
stat summary of git diff HEAD branch (none when git fails) and the
raw name-only diff output. -/
structure RepoView where
  diffStat : String → Option String
  diffNames : String → String

/-- ASCII whitespace, for Python's str.strip(). -/
def isWs (c : Char) : Bool := c == ' ' || c == '\t' || c == '\n' || c == '\r'

/-- Python's str.strip() on the character list of a string. -/
def trimChars (l : List Char) : List Char :=
  ((l.dropWhile isWs).reverse.dropWhile isWs).reverse

/-- Python's str.strip() as a string function. -/
def trimStr (s : String) : String := (trimChars s.data).asString

/-- Python's split on a newline character. -/
def splitNl : List Char → List (List Char)
  | [] => [[]]
  | c :: cs =>
    match splitNl cs with
    | [] => [[c]]
    | h :: t => if c == '\n' then [] :: h :: t else (c :: h) :: t

/-- The strip-then-split-then-drop-empties of create_merge_plan. -/
def splitLines (s : String) : List String :=
  ((splitNl (trimChars s.data)).filter (fun cs => !(cs.isEmpty))).map List.asString

/-- One entry of the merge plan. -/
structure MergeEntry where
  agentId : Nat
  branch : String
  filesChanged : List String
  diffSummary : String
deriving DecidableEq, Repr

/-- GitWorkspaceManager.create_merge_plan: for each listed agent id,
diff the fixed branch chibi/project/agent-{id} against HEAD; skip
agents whose stat diff fails; a pure function of the repository
view. -/
def createMergePlan (repo : RepoView) (agentIds : List Nat) : List MergeEntry :=
  agentIds.filterMap (fun i =>
    match repo.diffStat (mergePlanBranch i) with
    | none => none
    | some stat =>
      some ⟨i, mergePlanBranch i, splitLines (repo.diffNames (mergePlanBranch i)),
        trimStr stat⟩)

/-! ## Command routing (UnifiedTeamOrchestrator.send_command_to_lead
and TeamManager.send_to_lead) -/

/-- The runtime team state of the unified orchestrator.  The command
queue is an Option to mirror the is-not-None test in the source; the
constructor TeamState.__init__ always creates it. -/
structure UTeamState where
  commandQueue : Option (List String)
deriving DecidableEq, Repr

/-- TeamState.__init__: the command queue is created unconditionally. -/
def mkUTeamState : UTeamState := ⟨some []⟩

/-- The CLI lead process of the unified orchestrator: liveness and
the lines written to its stdin. -/
structure CliProc where
  returncode : Option Int
  stdinWrites : List String
deriving DecidableEq, Repr

/-- The registries send_command_to_lead consults. -/
structure CommState where
  teams : List (Nat × UTeamState)
  cliProcs : List (Nat × CliProc)
deriving DecidableEq, Repr

/-- The structured result send_command_to_lead returns. -/
inductive SendResult where
  | sent
  | errorNoTeam
  | errorNoSession
deriving DecidableEq, Repr

/-- Association-list update for the team registry. -/
def setTeam : List (Nat × UTeamState) → Nat → UTeamState → List (Nat × UTeamState)
  | [], k, v => [(k, v)]
  | p :: ps, k, v => if p.fst == k then (k, v) :: ps else p :: setTeam ps k v

/-- Association-list update for the CLI process registry. -/
def setProc : List (Nat × CliProc) → Nat → CliProc → List (Nat × CliProc)
  | [], k, v => [(k, v)]
  | p :: ps, k, v => if p.fst == k then (k, v) :: ps else p :: setProc ps k v

/-- UnifiedTeamOrchestrator.send_command_to_lead: a structured error
when no team state is registered; otherwise, when the command queue
is not None (always, by mkUTeamState) the message is enqueued and
sent is reported; only when the queue were None would a live CLI
process receive the message on stdin. -/
def sendCommandToLead (st : CommState) (projectId : Nat) (message : String) :
    CommState × SendResult :=
  match lookupA st.teams projectId with
  | none => (st, SendResult.errorNoTeam)
  | some ts =>
    match ts.commandQueue with
    | some q =>
      ({ st with teams := setTeam st.teams projectId ⟨some (q ++ [message])⟩ },
        SendResult.sent)
    | none =>
      match lookupA st.cliProcs projectId with
      | some p =>
        if p.returncode.isNone then
          ({ st with
              cliProcs := setProc st.cliProcs projectId
                { p with stdinWrites := p.stdinWrites ++ [message ++ "\n"] } },
            SendResult.sent)
        else (st, SendResult.errorNoSession)
      | none => (st, SendResult.errorNoSession)

/-- The lead session record of TeamManager: liveness and the lines
written to its stdin. -/
structure LeadSessionR where
  running : Bool
  stdinWrites : List String
deriving DecidableEq, Repr

/-- TeamManager.send_to_lead: a structured error when there is no
lead session or its process has exited; otherwise the message plus a
newline is written to the lead's stdin. -/
def sendToLead (lead : Option LeadSessionR) (message : String) :
    Option LeadSessionR × SendResult :=
  match lead with
  | none => (none, SendResult.errorNoSession)
  | some l =>
    if l.running then
      (some { l with stdinWrites := l.stdinWrites ++ [message ++ "\n"] },
        SendResult.sent)
    else (some l, SendResult.errorNoSession)

/-! ## Team cleanup (UnifiedTeamOrchestrator.cleanup_team) -/

/-- An agent row as cleanup_team reads it. -/
structure AgentRow where
  id : Nat
  projectId : Nat
deriving DecidableEq, Repr

/-- A session row keyed by its owning agent. -/
structure SessionRef where
  agentId : Nat
deriving DecidableEq, Repr

/-- A CLI process as cleanup_team terminates it. -/
structure CleanProc where
  returncode : Option Int
  gracefulWithin : Bool
deriving DecidableEq, Repr

/-- The registries and database rows cleanup_team touches. -/
structure OrchState where
  teams : List Nat
  monitors : List (Nat × Bool)
  agentMonitors : List (Nat × Bool)
  sessionIds : List (Nat × String)
  cliProcs : List (Nat × CleanProc)
  agents : List AgentRow
  sessions : List SessionRef
deriving DecidableEq, Repr

/-- The signals cleanup_team sends to a popped CLI process: nothing
for an absent or already exited process, SIGTERM for one that exits
within the 5 second wait, SIGTERM then SIGKILL otherwise. -/
def cleanupSignals (proc : Option CleanProc) : List SigAction :=
  match proc with
  | none => []
  | some p =>
    match p.returncode with
    | some _ => []
    | none =>
      if p.gracefulWithin then [SigAction.sigterm]
      else [SigAction.sigterm, SigAction.sigkill]

/-- UnifiedTeamOrchestrator.cleanup_team: pop the team state, cancel
and pop the project monitor, cancel and pop the monitor of every
agent of the project, pop the session id, pop and terminate the CLI
process, remove the project's worktrees, then delete the project's
agent rows and their session rows.  Every step tolerates an absent
entry, so the function is total. -/
def cleanupTeam (st : OrchState) (p : Nat) : OrchState × List SigAction :=
  let projAgents := st.agents.filter (fun a => a.projectId == p)
  let sigs := cleanupSignals (lookupA st.cliProcs p)
  (⟨ st.teams.filter (fun q => !(q == p))
   , removeA st.monitors p
   , st.agentMonitors.filter (fun kv => !(projAgents.any (fun a => a.id == kv.fst)))
   , removeA st.sessionIds p
   , removeA st.cliProcs p
   , st.agents.filter (fun a => !(a.projectId == p))
   , st.sessions.filter (fun s => !(projAgents.any (fun a => a.id == s.agentId))) ⟩,
   sigs)

/-! ## Team creation and the lead invariant
(UnifiedTeamOrchestrator.create_team_from_preset,
create_team_from_prompt and _handle_cli_teammate_spawned) -/

/-- An agent row as the team-creation paths write it. -/
structure AgentRec where
  id : Nat
  projectId : Nat
  isLead : Bool
  parent : Option Nat
  role : AgentRole
deriving DecidableEq, Repr

/-- The per-project runtime team state relevant to the invariant:
TeamState.lead_agent_id. -/
structure TeamReg where
  leadAgentId : Nat
deriving DecidableEq, Repr

/-- The world of agent rows and registered teams, with a fresh-id
counter standing for the database primary-key allocator. -/
structure World where
  agents : List AgentRec
  teams : List (Nat × TeamReg)
  nextId : Nat
deriving Repr

/-- The db_agents templates of TEAM_PRESETS (role, is_lead), in
definition order. -/
def teamPresets : List (String × List (AgentRole × Bool)) :=
  [ ("fullstack",
      [ (AgentRole.lead, true), (AgentRole.backend, false)
      , (AgentRole.frontend, false), (AgentRole.qa, false) ])
  , ("research",
      [ (AgentRole.lead, true), (AgentRole.security, false)
      , (AgentRole.backend, false), (AgentRole.docs, false) ])
  , ("review",
      [ (AgentRole.lead, true), (AgentRole.security, false)
      , (AgentRole.qa, false) ])
  , ("debug",
      [ (AgentRole.lead, true), (AgentRole.backend, false)
      , (AgentRole.frontend, false), (AgentRole.qa, false) ]) ]

/-- Preset lookup, as TEAM_PRESETS.get(preset_id). -/
def findPreset (presetId : String) : Option (List (AgentRole × Bool)) :=
  ((teamPresets.find? (fun kv => kv.fst == presetId)).map Prod.snd)

/-- The agents of one project. -/
def projAgents (w : World) (p : Nat) : List AgentRec :=
  w.agents.filter (fun a => a.projectId == p)

/-- Removal of a project's team registration and agent rows, the
effect of cleanup_team on the world. -/
def cleanupW (w : World) (p : Nat) : World :=
  ⟨ w.agents.filter (fun a => !(a.projectId == p))
  , removeA w.teams p
  , w.nextId ⟩

/-- The agent rows created for a preset's db_agents, with fresh
sequential ids and no parent yet. -/
def mkPresetAgents (p : Nat) (defs : List (AgentRole × Bool)) (startId : Nat) :
    List AgentRec :=
  defs.enum.map (fun e => ⟨startId + e.fst, p, e.snd.snd, none, e.snd.fst⟩)

/-- UnifiedTeamOrchestrator.create_team_from_preset: unknown presets
are rejected; otherwise any existing team of the project is cleaned
up first, one agent row per db_agents template is created, the lead
is the first row with is_lead, every non-lead row gets
parent_agent_id set to the lead's id, and the team is registered
with lead_agent_id. -/
def createFromPreset (w : World) (p : Nat) (presetId : String) : World :=
  match findPreset presetId with
  | none => w
  | some defs =>
    let w1 := cleanupW w p
    let created := mkPresetAgents p defs w1.nextId
    match created.find? (fun a => a.isLead) with
    | none => w1
    | some leadA =>
      let created2 :=
        created.map (fun a => if a.isLead then a else { a with parent := some leadA.id })
      ⟨w1.agents ++ created2, (p, ⟨leadA.id⟩) :: w1.teams, w1.nextId + defs.length⟩

/-- UnifiedTeamOrchestrator.create_team_from_prompt: clean up any
existing team, create the lead row alone, register the team with the
lead's id. -/
def createFromPrompt (w : World) (p : Nat) : World :=
  let w1 := cleanupW w p
  let leadA : AgentRec := ⟨w1.nextId, p, true, none, AgentRole.lead⟩
  ⟨w1.agents ++ [leadA], (p, ⟨leadA.id⟩) :: w1.teams, w1.nextId + 1⟩

/-- UnifiedTeamOrchestrator._handle_cli_teammate_spawned: only when
a team state is registered for the project, create a non-lead agent
row whose parent_agent_id is the registered lead_agent_id. -/
def teammateSpawned (w : World) (p : Nat) (r : AgentRole) : World :=
  match lookupA w.teams p with
  | none => w
  | some reg =>
    ⟨w.agents ++ [⟨w.nextId, p, false, some reg.leadAgentId, r⟩], w.teams, w.nextId + 1⟩

/-- The team states reachable by the orchestrator's creation,
discovery and cleanup paths. -/
inductive Reach : World → Prop where
  | init : Reach ⟨[], [], 0⟩
  | preset (w : World) (p : Nat) (presetId : String) :
      Reach w → Reach (createFromPreset w p presetId)
  | prompt (w : World) (p : Nat) :
      Reach w → Reach (createFromPrompt w p)
  | spawned (w : World) (p : Nat) (r : AgentRole) :
      Reach w → Reach (teammateSpawned w p r)
  | cleanup (w : World) (p : Nat) :
      Reach w → Reach (cleanupW w p)

/-- The per-team lead invariant: exactly one lead row and every
non-lead row referencing the lead's id. -/
def TeamOK (ag : List AgentRec) : Prop :=
  (ag.filter (fun a => a.isLead)).length = 1 ∧
  ∃ l ∈ ag, l.isLead = true ∧
    ∀ a ∈ ag, a.isLead = false → a.parent = some l.id

/-- The strengthened induction invariant: every nonempty team
satisfies TeamOK, and every registered team's lead_agent_id is the id
of a lead row of that project. -/
def WorldInv (w : World) : Prop :=
  ∀ p : Nat,
    (projAgents w p ≠ [] → TeamOK (projAgents w p)) ∧
    (∀ reg, lookupA w.teams p = some reg →
      ∃ l ∈ projAgents w p, l.isLead = true ∧ l.id = reg.leadAgentId)

/-- A concrete repository view used to instantiate the merge-plan
theorem. -/
def sampleRepo : RepoView :=
  ⟨fun _ => some " 2 files changed ", fun _ => "a.txt\nb.txt"⟩

/-! ## Helper lemmas -/

theorem lookupD_setA (l : List (String × Nat)) (k : String) (v : Nat) :
    lookupD (setA l k v) k = v := by
  induction l with
  | nil => simp [setA, lookupD]
  | cons p ps ih =>
    by_cases h : p.fst == k
    · simp [setA, h, lookupD]
    · simp only [setA, h, if_false, Bool.false_eq_true]
      simpa [lookupD, List.find?, h] using ih

theorem lookupA_removeA {α : Type} (l : List (Nat × α)) (k : Nat) :
    lookupA (removeA l k) k = none := by
  induction l with
  | nil => rfl
  | cons p ps ih =>
    by_cases hp : p.fst = k
    · have h1 : (p.fst == k) = true := beq_iff_eq.mpr hp
      simp only [removeA, List.filter_cons, h1] at ih ⊢
      simpa [removeA] using ih
    · have h1 : (p.fst == k) = false := beq_eq_false_iff_ne.mpr hp
      simp only [removeA, List.filter_cons, h1] at ih ⊢
      simp only [Bool.not_false, if_true, lookupA, List.find?_cons, h1]
      simp only [removeA, lookupA] at ih
      exact ih

theorem lookupA_removeA_ne {α : Type} (l : List (Nat × α)) (k j : Nat)
    (h : j ≠ k) : lookupA (removeA l k) j = lookupA l j := by
  induction l with
  | nil => rfl
  | cons p ps ih =>
    by_cases hp : p.fst = k
    · have h1 : (p.fst == k) = true := beq_iff_eq.mpr hp
      have h2 : (p.fst == j) = false := by
        rw [hp]; exact beq_eq_false_iff_ne.mpr (Ne.symm h)
      simp only [removeA, List.filter_cons, h1] at ih ⊢
      simp only [Bool.not_true, if_false, lookupA, List.find?_cons, h2]
      simpa [removeA, lookupA] using ih
    · have h1 : (p.fst == k) = false := beq_eq_false_iff_ne.mpr hp
      simp only [removeA, List.filter_cons, h1] at ih ⊢
      simp only [Bool.not_false, if_true, lookupA, List.find?_cons]
      by_cases hq : p.fst = j
      · simp [beq_iff_eq.mpr hq]
      · have h2 : (p.fst == j) = false := beq_eq_false_iff_ne.mpr hq
        simp only [h2]
        simpa [removeA, lookupA] using ih

theorem removeA_removeA {α : Type} (l : List (Nat × α)) (k : Nat) :
    removeA (removeA l k) k = removeA l k := by
  simp [removeA, List.filter_filter, Bool.and_self]

theorem stopSession_lookup_none (procs : List (Nat × StopProc)) (agentId : Nat)
    (h : lookupA procs agentId = none) :
    stopSession procs agentId = (procs, [], -1) := by
  simp [stopSession, h]

theorem find?_eq_of_first {α : Type} (l : List α) (q : α → Bool) (i : Nat)
    (hi : i < l.length) (h1 : q (l.get ⟨i, hi⟩) = true)
    (h2 : ∀ j (hj : j < i), q (l.get ⟨j, Nat.lt_trans hj hi⟩) = false) :
    l.find? q = some (l.get ⟨i, hi⟩) := by
  induction l generalizing i with
  | nil => exact absurd hi (Nat.not_lt_zero i)
  | cons a as ih =>
    cases i with
    | zero =>
      simp only [List.get] at h1
      simp [List.find?_cons, h1]
    | succ n =>
      have h0 : q a = false := h2 0 (Nat.succ_pos n)
      simp only [List.find?_cons, h0, cond_false]
      exact ih n (Nat.lt_of_succ_lt_succ hi) h1
        (fun j hj => h2 (j + 1) (Nat.succ_lt_succ hj))

theorem mem_of_mem_dedupIds (l : List String) (x : String) (h : x ∈ dedupIds l) :
    x ∈ l := by
  induction l with
  | nil => simp [dedupIds] at h
  | cons a as ih =>
    simp only [dedupIds, List.mem_cons] at h
    rcases h with h | h
    · exact h ▸ List.mem_cons_self a as
    · exact List.mem_cons_of_mem a (ih (List.mem_of_mem_filter h))

theorem pickFirstMin_cons (load : Nat → Nat) (a b : AgentR) (bs : List AgentR) :
    pickFirstMin load a (b :: bs) =
      pickFirstMin load (if load b.id < load a.id then b else a) bs := by
  simp only [pickFirstMin, List.foldl_cons]

theorem pickFirstMin_firstMin (load : Nat → Nat) :
    ∀ (rest : List AgentR) (a : AgentR),
      FirstMin (a :: rest) load (pickFirstMin load a rest) := by
  intro rest
  induction rest with
  | nil =>
    intro a
    exact ⟨[], [], rfl, by simp, by simp [pickFirstMin]⟩
  | cons b bs ih =>
    intro a
    rw [pickFirstMin_cons]
    by_cases hlt : load b.id < load a.id
    · rw [if_pos hlt]
      rcases ih b with ⟨pre, suf, hdec, hstrict, hmin⟩
      set c := pickFirstMin load b bs with hc
      have hca : load c.id < load a.id :=
        lt_of_le_of_lt (hmin b (List.mem_cons_self b bs)) hlt
      cases pre with
      | nil =>
        simp only [List.nil_append, List.cons.injEq] at hdec
        obtain ⟨hbc, hbs⟩ := hdec
        refine ⟨[a], suf, ?_, ?_, ?_⟩
        · rw [← hbc, ← hbs]; rfl
        · intro d hd
          have hda : d = a := List.mem_singleton.mp hd
          rw [hda]; exact hca
        · intro d hd
          rcases List.mem_cons.mp hd with hda | hd
          · rw [hda]; exact le_of_lt hca
          · exact hmin d hd
      | cons p0 pre2 =>
        simp only [List.cons_append, List.cons.injEq] at hdec
        obtain ⟨hbp, hbs2⟩ := hdec
        subst hbp
        refine ⟨a :: b :: pre2, suf, ?_, ?_, ?_⟩
        · rw [hbs2]; rfl
        · intro d hd
          rcases List.mem_cons.mp hd with hda | hd
          · rw [hda]; exact hca
          · exact hstrict d hd
        · intro d hd
          rcases List.mem_cons.mp hd with hda | hd
          · rw [hda]; exact le_of_lt hca
          · exact hmin d hd
    · rw [if_neg hlt]
      have hab : load a.id ≤ load b.id := le_of_not_lt hlt
      rcases ih a with ⟨pre, suf, hdec, hstrict, hmin⟩
      set c := pickFirstMin load a bs with hc
      have hcb : load c.id ≤ load b.id :=
        le_trans (hmin a (List.mem_cons_self a bs)) hab
      cases pre with
      | nil =>
        simp only [List.nil_append, List.cons.injEq] at hdec
        obtain ⟨hac, hbs⟩ := hdec
        refine ⟨[], b :: suf, ?_, ?_, ?_⟩
        · rw [← hac, ← hbs]; rfl
        · intro d hd
          exact absurd hd (List.not_mem_nil d)
        · intro d hd
          rcases List.mem_cons.mp hd with hda | hd
          · rw [hda]; exact hmin a (List.mem_cons_self a bs)
          rcases List.mem_cons.mp hd with hdb | hd
          · rw [hdb]; exact hcb
          · exact hmin d (List.mem_cons_of_mem a hd)
      | cons p0 pre2 =>
        simp only [List.cons_append, List.cons.injEq] at hdec
        obtain ⟨hap, hbs2⟩ := hdec
        subst hap
        have hcaS : load c.id < load a.id :=
          hstrict a (List.mem_cons_self a pre2)
        refine ⟨a :: b :: pre2, suf, ?_, ?_, ?_⟩
        · rw [hbs2]; rfl
        · intro d hd
          rcases List.mem_cons.mp hd with hda | hd
          · rw [hda]; exact hcaS
          rcases List.mem_cons.mp hd with hdb | hd
          · rw [hdb]; exact lt_of_lt_of_le hcaS hab
          · exact hstrict d (List.mem_cons_of_mem a hd)
        · intro d hd
          rcases List.mem_cons.mp hd with hda | hd
          · rw [hda]; exact le_of_lt hcaS
          rcases List.mem_cons.mp hd with hdb | hd
          · rw [hdb]; exact hcb
          · exact hmin d (List.mem_cons_of_mem a hd)

theorem firstMin_mem {cs : List AgentR} {load : Nat → Nat} {a : AgentR}
    (h : FirstMin cs load a) : a ∈ cs := by
  rcases h with ⟨pre, suf, hdec, -, -⟩
  rw [hdec]
  exact List.mem_append.mpr (Or.inr (List.mem_cons_self a suf))

theorem mem_roleCandidates {r : AgentRole} {agents : List AgentR} {a : AgentR}
    (h : a ∈ roleCandidates r agents) :
    a ∈ agents ∧ a.role = r ∧ a.role ≠ AgentRole.lead := by
  rcases List.mem_filter.mp h with ⟨hmem, hcond⟩
  simp only [Bool.and_eq_true, beq_iff_eq, Bool.not_eq_true] at hcond
  exact ⟨hmem, hcond.1, by simpa using hcond.2⟩

theorem findBestAgent_pref {t : TaskR} {agents : List AgentR} (load : Nat → Nat)
    {r : AgentRole} (hp : preferredRole t.title = some r)
    (hne : roleCandidates r agents ≠ []) :
    ∃ a, findBestAgent t agents load = some a ∧ a ∈ agents ∧ a.role = r ∧
      FirstMin (roleCandidates r agents) load a := by
  rcases hcs2 : roleCandidates r agents with _ | ⟨c, cs⟩
  · exact absurd hcs2 hne
  · have hfm := pickFirstMin_firstMin load cs c
    have hmem := firstMin_mem hfm
    have hmemR : pickFirstMin load c cs ∈ roleCandidates r agents := by
      rw [hcs2]; exact hmem
    have hrole := mem_roleCandidates hmemR
    refine ⟨pickFirstMin load c cs, ?_, hrole.1, hrole.2.1, hfm⟩
    simp only [findBestAgent, candidatesFor, hp]
    rw [hcs2]
    simp

theorem findBestAgent_some {t : TaskR} {agents : List AgentR} (load : Nat → Nat)
    (h : ∃ a ∈ agents, a.role ≠ AgentRole.lead) :
    ∃ a, findBestAgent t agents load = some a ∧ a ∈ agents ∧
      ChoiceOK agents load t a := by
  have hnl : nonLeadAgents agents ≠ [] := by
    rcases h with ⟨a, ha, har⟩
    intro hempty
    have : a ∈ nonLeadAgents agents :=
      List.mem_filter.mpr ⟨ha, by simpa using har⟩
    rw [hempty] at this
    exact absurd this (List.not_mem_nil a)
  rcases hpr : preferredRole t.title with _ | r
  · rcases hcs : nonLeadAgents agents with _ | ⟨c, cs⟩
    · exact absurd hcs hnl
    · have hfm := pickFirstMin_firstMin load cs c
      have hmem := firstMin_mem hfm
      have hmemN : pickFirstMin load c cs ∈ nonLeadAgents agents := by
        rw [hcs]; exact hmem
      refine ⟨pickFirstMin load c cs, ?_, (List.mem_filter.mp hmemN).1, ?_⟩
      · simp only [findBestAgent, candidatesFor, hpr]
        rw [hcs]
        simp
      · intro r0 hr0
        rw [hpr] at hr0
        exact absurd hr0 (by simp)
  · by_cases hrc : roleCandidates r agents = []
    · rcases hcs : nonLeadAgents agents with _ | ⟨c, cs⟩
      · exact absurd hcs hnl
      · have hfm := pickFirstMin_firstMin load cs c
        have hmem := firstMin_mem hfm
        have hmemN : pickFirstMin load c cs ∈ nonLeadAgents agents := by
          rw [hcs]; exact hmem
        refine ⟨pickFirstMin load c cs, ?_, (List.mem_filter.mp hmemN).1, ?_⟩
        · simp only [findBestAgent, candidatesFor, hpr]
          rw [hrc, hcs]
          simp
        · intro r0 hr0 hne0
          rw [hpr, Option.some.injEq] at hr0
          rw [← hr0] at hne0
          exact absurd hrc hne0
    · rcases findBestAgent_pref load hpr hrc with ⟨a, hfind, hmem, hrole, hfm⟩
      refine ⟨a, hfind, hmem, ?_⟩
      intro r0 hr0 _
      rw [hpr, Option.some.injEq] at hr0
      rw [← hr0]
      exact ⟨hrole, hfm⟩

theorem autoAssignGo_batch (agents : List AgentR) (leadA : Option AgentR)
    (h : ∃ a ∈ agents, a.role ≠ AgentRole.lead) :
    ∀ (ts : List TaskR) (load : Nat → Nat),
      BatchOK agents load ts (autoAssignGo agents leadA ts load) := by
  intro ts
  induction ts with
  | nil => intro load; rfl
  | cons t ts ih =>
    intro load
    rcases findBestAgent_some (t := t) load h with ⟨a, hfind, hmem, hchoice⟩
    simp only [autoAssignGo, hfind]
    exact ⟨a, autoAssignGo agents leadA ts (bump load a.id), rfl, hmem, hchoice,
      ih (bump load a.id)⟩

theorem findBestAgent_none_of_all_lead {t : TaskR} {agents : List AgentR}
    (load : Nat → Nat) (hall : ∀ a ∈ agents, a.role = AgentRole.lead) :
    findBestAgent t agents load = none := by
  have hnl : nonLeadAgents agents = [] := by
    simp only [nonLeadAgents]
    rw [List.filter_eq_nil_iff]
    intro a ha
    simp [hall a ha]
  have hrc : ∀ r, roleCandidates r agents = [] := by
    intro r
    simp only [roleCandidates]
    rw [List.filter_eq_nil_iff]
    intro a ha
    simp [hall a ha]
  rcases hpr : preferredRole t.title with _ | r
  · simp [findBestAgent, candidatesFor, hpr, hnl]
  · simp [findBestAgent, candidatesFor, hpr, hrc r, hnl]

theorem eq_of_filter_length_one {α : Type} (l : List α) (q : α → Bool)
    (h : (l.filter q).length = 1) {a b : α} (ha : a ∈ l) (hqa : q a = true)
    (hb : b ∈ l) (hqb : q b = true) : a = b := by
  have ha2 : a ∈ l.filter q := List.mem_filter.mpr ⟨ha, hqa⟩
  have hb2 : b ∈ l.filter q := List.mem_filter.mpr ⟨hb, hqb⟩
  rcases hfl : l.filter q with _ | ⟨x, xs⟩
  · rw [hfl] at ha2
    exact absurd ha2 (List.not_mem_nil a)
  · rw [hfl] at h ha2 hb2
    have hxs : xs = [] := by simpa using h
    subst hxs
    rw [List.mem_singleton.mp ha2, List.mem_singleton.mp hb2]

theorem projAgents_cleanupW_self (w : World) (p : Nat) :
    projAgents (cleanupW w p) p = [] := by
  simp only [projAgents, cleanupW, List.filter_filter]
  rw [List.filter_eq_nil_iff]
  intro a ha
  by_cases h : a.projectId = p
  · simp [h]
  · simp [h]

theorem projAgents_cleanupW_ne (w : World) (p q : Nat) (hq : q ≠ p) :
    projAgents (cleanupW w p) q = projAgents w q := by
  simp only [projAgents, cleanupW, List.filter_filter]
  apply List.filter_congr
  intro a _
  by_cases h : a.projectId = q
  · have hnp : (a.projectId == p) = false :=
      beq_eq_false_iff_ne.mpr (fun e => hq (h ▸ e))
    simp [h, hnp, hq]
  · simp [h]

theorem projAgents_append (ag ag2 : List AgentRec) (teams : List (Nat × TeamReg))
    (n : Nat) (q : Nat) :
    projAgents ⟨ag ++ ag2, teams, n⟩ q =
      projAgents ⟨ag, teams, n⟩ q ++ ag2.filter (fun a => a.projectId == q) := by
  simp only [projAgents]
  exact List.filter_append ag ag2

theorem mkPresetAgents_proj (p : Nat) (defs : List (AgentRole × Bool))
    (startId : Nat) :
    ∀ a ∈ mkPresetAgents p defs startId, a.projectId = p := by
  intro a ha
  rcases List.mem_map.mp ha with ⟨e, -, he⟩
  rw [← he]

theorem mkPresetAgents_leadCount (p : Nat) (defs : List (AgentRole × Bool))
    (startId : Nat) :
    ((mkPresetAgents p defs startId).filter (fun a => a.isLead)).length =
      (defs.filter (fun d => d.snd)).length := by
  simp only [mkPresetAgents]
  rw [List.filter_map]
  rw [List.length_map]
  have h1 : (List.filter
      ((fun (a : AgentRec) => a.isLead) ∘
        (fun e : Nat × (AgentRole × Bool) => AgentRec.mk (startId + e.fst) p e.snd.snd none e.snd.fst))
      defs.enum) = defs.enum.filter (fun e => e.snd.snd) := by
    apply List.filter_congr
    intro e _
    rfl
  rw [h1]
  have h2 : (defs.enum.filter (fun e => e.snd.snd)).map Prod.snd =
      (defs.enum.map Prod.snd).filter (fun d => d.snd) := by
    rw [List.filter_map]
    apply congrArg
    apply List.filter_congr
    intro e _
    rfl
  have h3 := congrArg List.length h2
  rw [List.length_map, List.enum_map_snd] at h3
  exact h3

theorem teamPresets_one_lead :
    ∀ kv ∈ teamPresets, ((kv.snd.filter (fun d => d.snd)).length = 1) := by
  decide

theorem findPreset_one_lead (pid : String) (defs : List (AgentRole × Bool))
    (h : findPreset pid = some defs) :
    (defs.filter (fun d => d.snd)).length = 1 := by
  simp only [findPreset] at h
  rcases hfk : teamPresets.find? (fun kv => kv.fst == pid) with _ | kv
  · rw [hfk] at h
    exact Option.noConfusion h
  · rw [hfk] at h
    injection h with h2
    rw [← h2]
    exact teamPresets_one_lead kv (List.mem_of_find?_eq_some hfk)

theorem worldInv_cleanupW (w : World) (p : Nat) (ih : WorldInv w) :
    WorldInv (cleanupW w p) := by
  intro q
  by_cases hq : q = p
  · subst hq
    constructor
    · intro hne
      exact absurd (projAgents_cleanupW_self w q) hne
    · intro reg hreg
      rw [show (cleanupW w q).teams = removeA w.teams q from rfl,
        lookupA_removeA] at hreg
      exact Option.noConfusion hreg
  · constructor
    · intro hne
      rw [projAgents_cleanupW_ne w p q hq] at hne ⊢
      exact (ih q).1 hne
    · intro reg hreg
      rw [show (cleanupW w p).teams = removeA w.teams p from rfl,
        lookupA_removeA_ne w.teams p q hq] at hreg
      rw [projAgents_cleanupW_ne w p q hq]
      exact (ih q).2 reg hreg

theorem worldInv_prompt (w : World) (p : Nat) (ih : WorldInv w) :
    WorldInv (createFromPrompt w p) := by
  have ih1 := worldInv_cleanupW w p ih
  have hprojSelf : projAgents (createFromPrompt w p) p =
      [⟨(cleanupW w p).nextId, p, true, none, AgentRole.lead⟩] := by
    simp only [createFromPrompt, projAgents, List.filter_append]
    have h1 : (cleanupW w p).agents.filter (fun a => a.projectId == p) = [] := by
      have := projAgents_cleanupW_self w p
      simpa [projAgents] using this
    rw [h1]
    simp
  intro q
  by_cases hq : q = p
  · subst hq
    constructor
    · intro _
      rw [hprojSelf]
      refine ⟨by simp, ⟨(cleanupW w q).nextId, q, true, none, AgentRole.lead⟩,
        List.mem_singleton.mpr rfl, rfl, ?_⟩
      intro a ha hnl
      rw [List.mem_singleton.mp ha] at hnl
      exact absurd hnl (by simp)
    · intro reg hreg
      have hregv : reg = ⟨(cleanupW w q).nextId⟩ := by
        simp only [createFromPrompt, lookupA, List.find?_cons, beq_self_eq_true] at hreg
        exact (Option.some.inj hreg).symm
      rw [hprojSelf, hregv]
      exact ⟨⟨(cleanupW w q).nextId, q, true, none, AgentRole.lead⟩,
        List.mem_singleton.mpr rfl, rfl, rfl⟩
  · have hproj : projAgents (createFromPrompt w p) q = projAgents w q := by
      simp only [createFromPrompt, projAgents, List.filter_append]
      have h1 : [(⟨(cleanupW w p).nextId, p, true, none, AgentRole.lead⟩ :
          AgentRec)].filter (fun a => a.projectId == q) = [] := by
        simp [beq_eq_false_iff_ne.mpr (fun e => hq e.symm)]
      rw [h1, List.append_nil]
      have := projAgents_cleanupW_ne w p q hq
      simpa [projAgents] using this
    constructor
    · intro hne
      rw [hproj] at hne ⊢
      exact (ih q).1 hne
    · intro reg hreg
      have hreg2 : lookupA (removeA w.teams p) q = some reg := by
        simpa [createFromPrompt, lookupA, List.find?_cons,
          beq_eq_false_iff_ne.mpr (fun e : p = q => hq e.symm), cleanupW] using hreg
      rw [lookupA_removeA_ne w.teams p q hq] at hreg2
      rw [hproj]
      exact (ih q).2 reg hreg2

theorem worldInv_spawned (w : World) (p : Nat) (r : AgentRole)
    (ih : WorldInv w) : WorldInv (teammateSpawned w p r) := by
  rcases hreg : lookupA w.teams p with _ | reg
  · simp only [teammateSpawned, hreg]
    exact ih
  · have hw2 : teammateSpawned w p r =
        ⟨w.agents ++ [⟨w.nextId, p, false, some reg.leadAgentId, r⟩],
          w.teams, w.nextId + 1⟩ := by
      simp only [teammateSpawned, hreg]
    obtain ⟨l, hlmem, hllead, hlid⟩ := (ih p).2 reg hreg
    have hpne : projAgents w p ≠ [] :=
      fun h => absurd (h ▸ hlmem) (List.not_mem_nil l)
    obtain ⟨hcount, l2, hl2mem, hl2lead, hpar⟩ := (ih p).1 hpne
    have hll2 : l = l2 :=
      eq_of_filter_length_one (projAgents w p) (fun a => a.isLead) hcount
        hlmem hllead hl2mem hl2lead
    intro q
    by_cases hq : q = p
    · subst hq
      have hproj : projAgents (teammateSpawned w q r) q =
          projAgents w q ++ [⟨w.nextId, q, false, some reg.leadAgentId, r⟩] := by
        rw [hw2]
        show (w.agents ++ _).filter (fun a => a.projectId == q) = _
        rw [List.filter_append]
        simp [projAgents]
      constructor
      · intro _
        rw [hproj]
        refine ⟨?_, l2, List.mem_append_left _ hl2mem, hl2lead, ?_⟩
        · rw [List.filter_append]
          have h1 : ([⟨w.nextId, q, false, some reg.leadAgentId, r⟩] :
              List AgentRec).filter (fun a => a.isLead) = [] := by simp
          rw [h1, List.append_nil]
          exact hcount
        · intro a ha hnl
          rcases List.mem_append.mp ha with ha | ha
          · exact hpar a ha hnl
          · rw [List.mem_singleton.mp ha]
            show some reg.leadAgentId = some l2.id
            rw [← hll2, ← hlid]
      · intro reg2 hreg2
        rw [hw2] at hreg2
        have hr2 : reg2 = reg := by
          have : lookupA w.teams q = some reg2 := hreg2
          rw [hreg] at this
          exact (Option.some.inj this).symm
        subst hr2
        exact ⟨l, by rw [hproj]; exact List.mem_append_left _ hlmem, hllead, hlid⟩
    · have hproj : projAgents (teammateSpawned w p r) q = projAgents w q := by
        rw [hw2]
        show (w.agents ++ _).filter (fun a => a.projectId == q) = _
        rw [List.filter_append]
        have h1 : [(⟨w.nextId, p, false, some reg.leadAgentId, r⟩ :
            AgentRec)].filter (fun a => a.projectId == q) = [] := by
          simp [beq_eq_false_iff_ne.mpr (fun e : p = q => hq e.symm)]
        rw [h1, List.append_nil]
        rfl
      constructor
      · intro hne
        rw [hproj] at hne ⊢
        exact (ih q).1 hne
      · intro reg2 hreg2
        rw [hw2] at hreg2
        rw [hproj]
        exact (ih q).2 reg2 hreg2

theorem worldInv_preset (w : World) (p : Nat) (pid : String) (ih : WorldInv w) :
    WorldInv (createFromPreset w p pid) := by
  rcases hfp : findPreset pid with _ | defs
  · simp only [createFromPreset, hfp]
    exact ih
  · have ih1 := worldInv_cleanupW w p ih
    rcases hfl : (mkPresetAgents p defs (cleanupW w p).nextId).find?
        (fun a => a.isLead) with _ | leadA
    · simp only [createFromPreset, hfp, hfl]
      exact ih1
    · have hw2 : createFromPreset w p pid =
          ⟨(cleanupW w p).agents ++
              (mkPresetAgents p defs (cleanupW w p).nextId).map
                (fun a => if a.isLead then a else { a with parent := some leadA.id }),
            (p, ⟨leadA.id⟩) :: (cleanupW w p).teams,
            (cleanupW w p).nextId + defs.length⟩ := by
        simp only [createFromPreset, hfp, hfl]
      set created := mkPresetAgents p defs (cleanupW w p).nextId with hcreated
      set created2 := created.map
        (fun a => if a.isLead then a else { a with parent := some leadA.id })
        with hcreated2
      have hproj2 : ∀ a ∈ created2, a.projectId = p := by
        intro a ha
        rcases List.mem_map.mp ha with ⟨b, hb, hba⟩
        have hbp := mkPresetAgents_proj p defs (cleanupW w p).nextId b hb
        rw [← hba]
        by_cases hbl : b.isLead <;> simp [hbl, hbp]
      have hleadA : leadA.isLead = true := List.find?_some hfl
      have hleadAmem : leadA ∈ created := List.mem_of_find?_eq_some hfl
      have hleadA2 : leadA ∈ created2 := by
        have hfix : (fun a => if a.isLead then a
            else { a with parent := some leadA.id }) leadA = leadA := by
          simp [hleadA]
        exact List.mem_map.mpr ⟨leadA, hleadAmem, hfix⟩
      have hcount2 : (created2.filter (fun a => a.isLead)).length = 1 := by
        rw [hcreated2, List.filter_map, List.length_map]
        have hsame : created.filter ((fun a => a.isLead) ∘
            (fun a => if a.isLead then a else { a with parent := some leadA.id })) =
            created.filter (fun a => a.isLead) := by
          apply List.filter_congr
          intro a _
          by_cases hal : a.isLead <;> simp [hal]
        rw [hsame, hcreated, mkPresetAgents_leadCount]
        exact findPreset_one_lead pid defs hfp
      have hpar2 : ∀ a ∈ created2, a.isLead = false → a.parent = some leadA.id := by
        intro a ha hnl
        rcases List.mem_map.mp ha with ⟨b, hb, hba⟩
        by_cases hbl : b.isLead
        · rw [← hba] at hnl
          simp [hbl] at hnl
        · rw [← hba]
          simp [hbl]
      intro q
      by_cases hq : q = p
      · subst hq
        have hproj : projAgents (createFromPreset w q pid) q = created2 := by
          rw [hw2]
          show ((cleanupW w q).agents ++ created2).filter
            (fun a => a.projectId == q) = created2
          rw [List.filter_append]
          have h1 : (cleanupW w q).agents.filter (fun a => a.projectId == q) = [] := by
            have := projAgents_cleanupW_self w q
            simpa [projAgents] using this
          have h2 : created2.filter (fun a => a.projectId == q) = created2 :=
            List.filter_eq_self.mpr (fun a ha => by simp [hproj2 a ha])
          rw [h1, h2, List.nil_append]
        constructor
        · intro _
          rw [hproj]
          exact ⟨hcount2, leadA, hleadA2, hleadA, hpar2⟩
        · intro reg hreg
          rw [hw2] at hreg
          have hregv : reg = ⟨leadA.id⟩ := by
            simp only [lookupA, List.find?_cons, beq_self_eq_true] at hreg
            exact (Option.some.inj hreg).symm
          rw [hproj, hregv]
          exact ⟨leadA, hleadA2, hleadA, rfl⟩
      · have hproj : projAgents (createFromPreset w p pid) q = projAgents w q := by
          rw [hw2]
          show ((cleanupW w p).agents ++ created2).filter
            (fun a => a.projectId == q) = _
          rw [List.filter_append]
          have h2 : created2.filter (fun a => a.projectId == q) = [] := by
            rw [List.filter_eq_nil_iff]
            intro a ha
            rw [hproj2 a ha]
            simp [beq_eq_false_iff_ne.mpr (fun e : p = q => hq e.symm)]
          rw [h2, List.append_nil]
          have := projAgents_cleanupW_ne w p q hq
          simpa [projAgents] using this
        constructor
        · intro hne
          rw [hproj] at hne ⊢
          exact (ih q).1 hne
        · intro reg hreg
          rw [hw2] at hreg
          have hreg2 : lookupA (removeA w.teams p) q = some reg := by
            simpa [lookupA, List.find?_cons,
              beq_eq_false_iff_ne.mpr (fun e : p = q => hq e.symm),
              cleanupW] using hreg
          rw [lookupA_removeA_ne w.teams p q hq] at hreg2
          rw [hproj]
          exact (ih q).2 reg hreg2

theorem worldInv_of_reach (w : World) (h : Reach w) : WorldInv w := by
  induction h with
  | init =>
    intro p
    constructor
    · intro hne
      exact absurd rfl hne
    · intro reg hreg
      exact Option.noConfusion hreg
  | preset w p pid _ ih => exact worldInv_preset w p pid ih
  | prompt w p _ ih => exact worldInv_prompt w p ih
  | spawned w p r _ ih => exact worldInv_spawned w p r ih
  | cleanup w p _ ih => exact worldInv_cleanupW w p ih

theorem autoAssignGo_all_lead (agents : List AgentR) (l : AgentR)
    (hall : ∀ a ∈ agents, a.role = AgentRole.lead) :
    ∀ (ts : List TaskR) (load : Nat → Nat),
      autoAssignGo agents (some l) ts load =
        ts.map (fun t => ⟨t.id, l⟩) := by
  intro ts
  induction ts with
  | nil => intro load; rfl
  | cons t ts ih =>
    intro load
    simp only [autoAssignGo, findBestAgent_none_of_all_lead load hall,
      List.map_cons]
    exact congrArg _ (ih _)

/-! ## Claim theorems -/

/-- C1: the claim says a non-zero process exit without any completion
signal leaves the work item failed and the session failed with
truncated stderr attached.  The source takes the success branch
instead: once the process has exited, is_running is false, so the
condition completed_ok or not is_running holds and _monitor_agent
commits the worktree and marks the task review and the session idle;
the failure branch is unreachable for an exited process.  Evaluated
here at the claim's failing input: exit code 1, no events, captured
stderr present. -/
theorem monitorAgent_nonzero_exit_marks_review_idle :
    monitorAgentFinal [] (some ⟨some 1⟩) "boom" =
      ⟨TaskStatus.review, SessionStatus.idle, true, none⟩ ∧
    streamCompletedOk [] = false ∧
    isRunning (some ⟨some 1⟩) = false ∧
    (monitorAgentFinal [] (some ⟨some 1⟩) "boom").taskStatus ≠ TaskStatus.failed ∧
    (monitorAgentFinal [] (some ⟨some 1⟩) "boom").sessionStatus ≠ SessionStatus.failed := by
  refine ⟨rfl, rfl, rfl, by decide, by decide⟩

/-- C6: the claim says that with an active session the operator text
is delivered to the inbox/command path or, in direct-process (CLI)
mode, to the running process's input stream.  In the source the test
state.command_queue is not None always succeeds (the queue is created
unconditionally in TeamState.__init__), so with a registered team and
a live CLI process the message is enqueued on the internal queue,
sent is reported, and nothing is ever written to the process's stdin:
the stdin branch is unreachable.  Evaluated at the failing input. -/
theorem sendCommand_cli_stdin_unreachable :
    (sendCommandToLead ⟨[(1, mkUTeamState)], [(1, ⟨none, []⟩)]⟩ 1 "deploy").snd =
      SendResult.sent ∧
    (lookupA (sendCommandToLead ⟨[(1, mkUTeamState)], [(1, ⟨none, []⟩)]⟩ 1
        "deploy").fst.cliProcs 1) = some ⟨none, []⟩ ∧
    (lookupA (sendCommandToLead ⟨[(1, mkUTeamState)], [(1, ⟨none, []⟩)]⟩ 1
        "deploy").fst.teams 1) = some ⟨some ["deploy"]⟩ ∧
    (sendCommandToLead ⟨[], []⟩ 1 "deploy").snd = SendResult.errorNoTeam ∧
    (sendToLead none "hi").snd = SendResult.errorNoSession ∧
    (sendToLead (some ⟨false, []⟩) "hi").snd = SendResult.errorNoSession ∧
    (sendToLead (some ⟨true, []⟩) "hi").fst = some ⟨true, ["hi\n"]⟩ := by
  refine ⟨rfl, by decide, by decide, rfl, rfl, rfl, rfl⟩

/-- C7 counterexample: the claim says a shrinking inbox file is
treated as starting from index 0 again, firing every message of the
new list.  On a state that has observed 2 messages, a rewritten file
with the single message hello and an advanced modification time fires
no message at all, because messages[prev_len:] is empty. -/
theorem pollInbox_shrink_counterexample :
    (pollInboxFile ⟨[("alice", 5)], [("alice", 2)]⟩ ⟨"alice", 6, some ["hello"]⟩).fired
      = [] ∧
    lookupD (⟨[("alice", 5)], [("alice", 2)]⟩ : InboxState).mtimes "alice" < 6 ∧
    lookupD (⟨[("alice", 5)], [("alice", 2)]⟩ : InboxState).lengths "alice" = 2 ∧
    ([] : List (String × String)) ≠ [("alice", "hello")] := by
  refine ⟨by decide, by decide, by decide, by decide⟩

/-- C7 amended: when an inbox file's modification time advances and
it parses as a list, inboxMessage fires exactly once per message
beyond the previously observed length; a shrinking or rewritten file
with fewer messages than previously observed fires nothing on that
poll, and the observed length is reset to the new length so that
messages appended past it on a later poll all fire. -/
theorem pollInbox_amended (st : InboxState) (f : InboxFile) (msgs : List String)
    (hm : lookupD st.mtimes f.name < f.mtime) (hp : f.parse = some msgs) :
    (pollInboxFile st f).fired =
      (msgs.drop (lookupD st.lengths f.name)).map (fun m => (f.name, m)) ∧
    lookupD (pollInboxFile st f).state.lengths f.name = msgs.length ∧
    lookupD (pollInboxFile st f).state.mtimes f.name = f.mtime ∧
    (msgs.length ≤ lookupD st.lengths f.name → (pollInboxFile st f).fired = []) ∧
    (∀ extra : List String,
      (pollInboxFile (pollInboxFile st f).state
          ⟨f.name, f.mtime + 1, some (msgs ++ extra)⟩).fired =
        extra.map (fun m => (f.name, m))) := by
  have hif : ¬ (f.mtime ≤ lookupD st.mtimes f.name) := not_le.mpr hm
  have hres : pollInboxFile st f =
      ⟨⟨setA st.mtimes f.name f.mtime, setA st.lengths f.name msgs.length⟩,
        (msgs.drop (lookupD st.lengths f.name)).map (fun m => (f.name, m))⟩ := by
    simp [pollInboxFile, hif, hp]
  refine ⟨by rw [hres], ?_, ?_, ?_, ?_⟩
  · rw [hres]; exact lookupD_setA _ _ _
  · rw [hres]; exact lookupD_setA _ _ _
  · intro hle
    rw [hres]
    simp [List.drop_eq_nil_of_le hle]
  · intro extra
    rw [hres]
    have h1 : lookupD (setA st.mtimes f.name f.mtime) f.name = f.mtime :=
      lookupD_setA _ _ _
    have h2 : lookupD (setA st.lengths f.name msgs.length) f.name = msgs.length :=
      lookupD_setA _ _ _
    have hif2 : ¬ (f.mtime + 1 ≤
        lookupD (setA st.mtimes f.name f.mtime) f.name) := by
      rw [h1]; omega
    simp [pollInboxFile, hif2, h2, List.drop_left]

/-- C7 witness: the amended theorem instantiated at an empty state
and a two-message inbox file named bob. -/
theorem pollInbox_amended_witness :
    lookupD (InboxState.mk [] []).mtimes "bob" < 1 ∧
    (pollInboxFile ⟨[], []⟩ ⟨"bob", 1, some ["x", "y"]⟩).fired =
      [("bob", "x"), ("bob", "y")] := by
  refine ⟨by decide, ?_⟩
  have h := (pollInbox_amended ⟨[], []⟩ ⟨"bob", 1, some ["x", "y"]⟩ ["x", "y"]
    (by decide) rfl).1
  rw [h]; decide

/-- C5 counterexample: the claim says that after stopWorker every
session of the worker in any non-terminal prior status, including
starting, ends up stopped.  The source only rewrites sessions whose
status is running, so a session in starting keeps its status. -/
theorem stopAgent_starting_counterexample :
    ((stopAgent ⟨[], [], [⟨7, SessionStatus.starting⟩]⟩ 7).fst).sessions =
      [⟨7, SessionStatus.starting⟩] ∧
    SessionStatus.starting ≠ SessionStatus.stopped := by
  refine ⟨by decide, by decide⟩

/-- C5 amended: operator stop always succeeds and is idempotent; the
monitoring task is removed; an absent or already exited process gets
no signal, otherwise SIGTERM is sent first and SIGKILL only when the
process does not exit within the 10 second bound; and every session
of the worker whose status was running is stopped afterwards, while
sessions in any other status (including starting) keep their prior
status. -/
theorem stopAgent_amended (st : StopState) (agentId : Nat) :
    lookupA (stopAgent st agentId).fst.monitors agentId = none ∧
    List.Forall₂
      (fun s t =>
        (s.agentId = agentId ∧ s.status = SessionStatus.running →
          t = ⟨s.agentId, SessionStatus.stopped⟩) ∧
        (¬ (s.agentId = agentId ∧ s.status = SessionStatus.running) → t = s))
      st.sessions (stopAgent st agentId).fst.sessions ∧
    (lookupA st.procs agentId = none → (stopAgent st agentId).snd = []) ∧
    (∀ p c, lookupA st.procs agentId = some p → p.returncode = some c →
      (stopAgent st agentId).snd = []) ∧
    (∀ p, lookupA st.procs agentId = some p → p.returncode = none →
      (p.gracefulWithin = true → (stopAgent st agentId).snd = [SigAction.sigterm]) ∧
      (p.gracefulWithin = false →
        (stopAgent st agentId).snd = [SigAction.sigterm, SigAction.sigkill])) ∧
    stopAgent (stopAgent st agentId).fst agentId = ((stopAgent st agentId).fst, []) := by
  constructor
  · simp only [stopAgent]
    exact lookupA_removeA _ _
  constructor
  · simp only [stopAgent]
    rw [List.forall₂_map_right_iff]
    rw [List.forall₂_same]
    intro s _
    constructor
    · rintro ⟨h1, h2⟩
      simp [stopMark, h1, h2]
    · intro hn
      by_cases h1 : s.agentId = agentId
      · have h2 : s.status ≠ SessionStatus.running := fun h2 => hn ⟨h1, h2⟩
        simp [stopMark, beq_iff_eq.mpr h1, beq_eq_false_iff_ne.mpr h2]
      · simp [stopMark, beq_eq_false_iff_ne.mpr h1]
  constructor
  · intro hc
    simp [stopAgent, stopSession, hc]
  constructor
  · intro p c hc hr
    simp [stopAgent, stopSession, hc, hr]
  constructor
  · intro p hc hr
    constructor
    · intro hg; simp [stopAgent, stopSession, hc, hr, hg]
    · intro hg; simp [stopAgent, stopSession, hc, hr, hg]
  · have hproc : lookupA (stopSession st.procs agentId).fst agentId = none := by
      rcases hc : lookupA st.procs agentId with _ | p
      · simp only [stopSession, hc]
      · rcases hr : p.returncode with _ | c
        · rcases hg : p.gracefulWithin with _ | _
          · simp [stopSession, hc, hr, hg, lookupA_removeA]
          · simp [stopSession, hc, hr, hg, lookupA_removeA]
        · simp [stopSession, hc, hr, lookupA_removeA]
    have hmark : ∀ s, stopMark agentId (stopMark agentId s) = stopMark agentId s := by
      intro s
      by_cases h1 : s.agentId = agentId
      · by_cases h2 : s.status = SessionStatus.running
        · simp [stopMark, beq_iff_eq.mpr h1, h2]
        · simp [stopMark, beq_iff_eq.mpr h1, beq_eq_false_iff_ne.mpr h2]
      · simp [stopMark, beq_eq_false_iff_ne.mpr h1]
    have hsess : ((st.sessions.map (stopMark agentId)).map (stopMark agentId)) =
        st.sessions.map (stopMark agentId) := by
      rw [List.map_map]
      exact List.map_congr_left (fun s _ => hmark s)
    simp only [stopAgent]
    rw [Prod.mk.injEq, StopState.mk.injEq]
    refine ⟨⟨removeA_removeA _ _, ?_, hsess⟩, ?_⟩
    · rw [stopSession_lookup_none _ _ hproc]
    · rw [stopSession_lookup_none _ _ hproc]

/-- C5 witness: the amended theorem instantiated at a state holding a
running session of agent 7, a starting session of agent 7, and a live
process that exits within the graceful bound. -/
theorem stopAgent_amended_witness :
    lookupA ([(7, (⟨none, true, 0⟩ : StopProc))]) 7 = some ⟨none, true, 0⟩ ∧
    (stopAgent ⟨[(7, true)], [(7, ⟨none, true, 0⟩)],
        [⟨7, SessionStatus.running⟩, ⟨7, SessionStatus.starting⟩]⟩ 7).snd =
      [SigAction.sigterm] := by
  refine ⟨by decide, ?_⟩
  exact ((stopAgent_amended
    ⟨[(7, true)], [(7, ⟨none, true, 0⟩)],
      [⟨7, SessionStatus.running⟩, ⟨7, SessionStatus.starting⟩]⟩ 7).2.2.2.2.1
    ⟨none, true, 0⟩ (by decide) rfl).1 rfl

/-- C8 counterexample: the claim says create_worktree yields branch
teamLabel/agent-workerId and create_merge_plan diffs that same
branch.  For team label alpha and worker 7 the created branch is
chibi/alpha/agent-7, not alpha/agent-7, and the merge plan diffs the
fixed branch chibi/project/agent-7, which differs from the created
branch. -/
theorem createMergePlan_branch_counterexample :
    mergePlanBranch 7 ≠ createWorktreeBranch "alpha" 7 ∧
    createWorktreeBranch "alpha" 7 ≠ "alpha/agent-7" ∧
    createWorktreeBranch "alpha" 7 = "chibi/alpha/agent-7" ∧
    mergePlanBranch 7 = "chibi/project/agent-7" := by
  refine ⟨by decide, by decide, by decide, by decide⟩

/-- C8 amended: create_worktree deterministically yields branch
chibi/teamLabel/agent-workerId and directory
repoPath/worktreeBase/agent-workerId; create_merge_plan diffs for
each listed worker the fixed branch chibi/project/agent-workerId
against HEAD — the branch create_worktree produced only when the team
label is the default project — taking its file list from the
name-only diff and its summary from the trimmed stat diff, as a pure
read-only function of the repository view. -/
theorem createMergePlan_amended :
    (∀ i : Nat, mergePlanBranch i = createWorktreeBranch "project" i) ∧
    (∀ (label : String) (i : Nat),
      createWorktreeBranch label i = "chibi/" ++ label ++ "/agent-" ++ toString i) ∧
    (∀ (repoPath base : String) (i : Nat),
      worktreeDir repoPath base i = repoPath ++ "/" ++ base ++ "/agent-" ++ toString i) ∧
    (∀ (repo : RepoView) (ids : List Nat) (e : MergeEntry),
      e ∈ createMergePlan repo ids →
        e.agentId ∈ ids ∧ e.branch = mergePlanBranch e.agentId ∧
        e.filesChanged = splitLines (repo.diffNames (mergePlanBranch e.agentId)) ∧
        ∃ stat, repo.diffStat (mergePlanBranch e.agentId) = some stat ∧
          e.diffSummary = trimStr stat) := by
  refine ⟨?_, fun _ _ => rfl, fun _ _ _ => rfl, ?_⟩
  · intro i
    show "chibi/project/agent-" ++ toString i = ("chibi/" ++ "project" ++ "/agent-") ++ toString i
    rw [show ("chibi/" ++ "project" ++ "/agent-" : String) = "chibi/project/agent-" from rfl]
  · intro repo ids e he
    rcases List.mem_filterMap.mp he with ⟨i, hi, hfe⟩
    rcases hstat : repo.diffStat (mergePlanBranch i) with _ | stat
    · rw [hstat] at hfe
      exact absurd hfe (by simp)
    · rw [hstat] at hfe
      simp only [Option.some.injEq] at hfe
      subst hfe
      exact ⟨hi, rfl, rfl, stat, hstat, rfl⟩

/-- C8 witness: the amended theorem applied to the entry the merge
plan produces for worker 3 over the sample repository view. -/
theorem createMergePlan_amended_witness :
    (⟨3, "chibi/project/agent-3", ["a.txt", "b.txt"], "2 files changed"⟩ : MergeEntry) ∈
      createMergePlan sampleRepo [3] ∧
    (3 : Nat) ∈ [3] ∧
    ("chibi/project/agent-3" : String) = mergePlanBranch 3 := by
  have hm : (⟨3, "chibi/project/agent-3", ["a.txt", "b.txt"], "2 files changed"⟩ :
      MergeEntry) ∈ createMergePlan sampleRepo [3] := by decide
  have h := createMergePlan_amended.2.2.2 sampleRepo [3]
    ⟨3, "chibi/project/agent-3", ["a.txt", "b.txt"], "2 files changed"⟩ hm
  exact ⟨hm, h.1, h.2.1⟩

/-- C3: when the roster file's modification time advances and the new
member-id set has exactly one id missing from the last-known set,
_poll_config fires exactly one memberJoined callback, for a member
record carrying that id; the last-known set becomes the new id set;
and polling the unchanged file again fires nothing. -/
theorem pollConfig_memberJoined (st : WatcherConfigState) (f : ConfigFile)
    (ms : List Member) (x : String)
    (hm : st.configMtime < f.mtime) (hp : f.parse = some ms)
    (hx : setDiff (dedupIds (ms.map (fun m => m.agentId))) st.knownMembers = [x]) :
    (∃ m, (pollConfig st (some f)).joined = [m] ∧ m.agentId = x) ∧
    (pollConfig st (some f)).state.knownMembers =
      dedupIds (ms.map (fun m => m.agentId)) ∧
    (pollConfig st (some f)).state.configMtime = f.mtime ∧
    pollConfig (pollConfig st (some f)).state (some f) =
      ⟨(pollConfig st (some f)).state, [], []⟩ := by
  have hif : ¬ (f.mtime ≤ st.configMtime) := not_le.mpr hm
  have hres : pollConfig st (some f) =
      ⟨⟨f.mtime, dedupIds (ms.map (fun m => m.agentId))⟩,
        (setDiff (dedupIds (ms.map (fun m => m.agentId)))
            st.knownMembers).filterMap
          (fun i => ms.reverse.find? (fun m => m.agentId == i)),
        setDiff st.knownMembers (dedupIds (ms.map (fun m => m.agentId)))⟩ := by
    simp [pollConfig, hif, hp]
  have hxmem : x ∈ ms.map (fun m => m.agentId) := by
    have h1 : x ∈ setDiff (dedupIds (ms.map (fun m => m.agentId))) st.knownMembers := by
      rw [hx]; exact List.mem_singleton.mpr rfl
    have h2 : x ∈ dedupIds (ms.map (fun m => m.agentId)) :=
      List.mem_of_mem_filter h1
    exact mem_of_mem_dedupIds _ _ h2
  have hfind : ∃ m, ms.reverse.find? (fun m => m.agentId == x) = some m ∧
      m.agentId = x := by
    have hsome : (ms.reverse.find? (fun m => m.agentId == x)).isSome := by
      rw [List.find?_isSome]
      rcases List.mem_map.mp hxmem with ⟨m, hmm, hma⟩
      exact ⟨m, List.mem_reverse.mpr hmm, by simp [hma]⟩
    rcases Option.isSome_iff_exists.mp hsome with ⟨m, hfm⟩
    have hpm := List.find?_some hfm
    exact ⟨m, hfm, by simpa using hpm⟩
  rcases hfind with ⟨m, hfm, hma⟩
  refine ⟨⟨m, ?_, hma⟩, ?_, ?_, ?_⟩
  · rw [hres]
    simp only [hx, List.filterMap_cons, List.filterMap_nil, hfm]
  · rw [hres]
  · rw [hres]
  · rw [hres]
    simp [pollConfig]

/-- C4: cleanup_team is total (no step can fail on missing handles or
already exited processes) and after it runs no worker or session
record of the project remains, no team state is registered, no
project monitor or per-agent monitor task remains, and the registered
CLI process entry is gone (a live one having been signalled SIGTERM
and, only past the bounded wait, SIGKILL); calling it again returns
the same state and sends no signal. -/
theorem cleanupTeam_idempotent (st : OrchState) (p : Nat) :
    p ∉ (cleanupTeam st p).fst.teams ∧
    lookupA (cleanupTeam st p).fst.monitors p = none ∧
    lookupA (cleanupTeam st p).fst.sessionIds p = none ∧
    lookupA (cleanupTeam st p).fst.cliProcs p = none ∧
    (∀ a ∈ (cleanupTeam st p).fst.agents, a.projectId ≠ p) ∧
    (∀ a ∈ st.agents, a.projectId = p →
      lookupA (cleanupTeam st p).fst.agentMonitors a.id = none) ∧
    (∀ s ∈ (cleanupTeam st p).fst.sessions, ∀ a ∈ st.agents, a.projectId = p →
      s.agentId ≠ a.id) ∧
    cleanupTeam (cleanupTeam st p).fst p = ((cleanupTeam st p).fst, []) := by
  refine ⟨?_, lookupA_removeA _ _, lookupA_removeA _ _, lookupA_removeA _ _,
    ?_, ?_, ?_, ?_⟩
  · intro hmem
    have := List.of_mem_filter hmem
    simp at this
  · intro a ha
    have := List.of_mem_filter ha
    simpa using this
  · intro a ha hap
    simp only [cleanupTeam, lookupA]
    rw [Option.map_eq_none', List.find?_eq_none]
    intro kv hkv hbv
    have hf := List.of_mem_filter hkv
    have hmem : a ∈ st.agents.filter (fun b => b.projectId == p) :=
      List.mem_filter.mpr ⟨ha, beq_iff_eq.mpr hap⟩
    have hany : (st.agents.filter (fun b => b.projectId == p)).any
        (fun b => b.id == kv.fst) = true :=
      List.any_eq_true.mpr ⟨a, hmem, by simpa using (beq_iff_eq.mp hbv).symm⟩
    rw [hany] at hf
    simp at hf
  · intro s hs a ha hap hsa
    have hf := List.of_mem_filter hs
    have hmem : a ∈ st.agents.filter (fun b => b.projectId == p) :=
      List.mem_filter.mpr ⟨ha, beq_iff_eq.mpr hap⟩
    have hany : (st.agents.filter (fun b => b.projectId == p)).any
        (fun b => b.id == s.agentId) = true :=
      List.any_eq_true.mpr ⟨a, hmem, by simp [hsa]⟩
    rw [hany] at hf
    simp at hf
  · have hagents : (cleanupTeam st p).fst.agents.filter
        (fun a => a.projectId == p) = [] := by
      simp only [cleanupTeam]
      rw [List.filter_filter]
      simp [Bool.and_not_self]
    simp only [cleanupTeam, hagents]
    rw [Prod.mk.injEq, OrchState.mk.injEq]
    refine ⟨⟨?_, removeA_removeA _ _, ?_, removeA_removeA _ _,
      removeA_removeA _ _, ?_, ?_⟩, ?_⟩
    · rw [List.filter_filter]
      simp [Bool.and_self]
    · simp
    · rw [List.filter_filter]
      simp [Bool.and_self]
    · simp
    · simp [lookupA_removeA, cleanupSignals]

/-- C4 witness: the theorem applied to a partially initialised state
(one agent row, one agent monitor, no CLI process handle). -/
theorem cleanupTeam_idempotent_witness :
    ((⟨5, 1⟩ : AgentRow) ∈
      (OrchState.mk [1] [] [(5, true)] [] [] [⟨5, 1⟩] [⟨5⟩]).agents) ∧
    lookupA (cleanupTeam ⟨[1], [], [(5, true)], [], [], [⟨5, 1⟩], [⟨5⟩]⟩ 1).fst.agentMonitors 5
      = none := by
  refine ⟨by decide, ?_⟩
  exact (cleanupTeam_idempotent ⟨[1], [], [(5, true)], [], [], [⟨5, 1⟩], [⟨5⟩]⟩ 1).2.2.2.2.2.1
    ⟨5, 1⟩ (by decide) rfl

/-- C9: in every team state reachable by preset creation, prompt
creation, teammate discovery and cleanup, every project with agent
rows has exactly one row with is_lead true, and every non-lead row's
parent_agent_id references that lead's id. -/
theorem team_lead_invariant (w : World) (hw : Reach w) :
    ∀ p, projAgents w p ≠ [] →
      ((projAgents w p).filter (fun a => a.isLead)).length = 1 ∧
      ∃ l ∈ projAgents w p, l.isLead = true ∧
        ∀ a ∈ projAgents w p, a.isLead = false → a.parent = some l.id := by
  intro p hne
  exact (worldInv_of_reach w hw p).1 hne

/-- C9 witness: the invariant evaluated on the team created from the
fullstack preset for project 1 in the empty world. -/
theorem team_lead_invariant_witness :
    projAgents (createFromPreset ⟨[], [], 0⟩ 1 "fullstack") 1 ≠ [] ∧
    ((projAgents (createFromPreset ⟨[], [], 0⟩ 1 "fullstack") 1).filter
      (fun a => a.isLead)).length = 1 := by
  refine ⟨by decide, ?_⟩
  exact (team_lead_invariant (createFromPreset ⟨[], [], 0⟩ 1 "fullstack")
    (Reach.preset ⟨[], [], 0⟩ 1 "fullstack" Reach.init) 1 (by decide)).1

/-- C2: whenever the agent set holds at least one non-lead agent,
auto_assign assigns every unassigned todo task, in input order, to an
agent of the set; whenever a task's title yields a preferred role for
which a non-lead agent exists, the chosen agent has exactly that role
and stands first, by input order, among the minimum-load candidates
of that role, the load being the count of in_progress/review tasks
plus the assignments already made earlier in the same batch; and when
every agent is the lead, each task is assigned to the lead. -/
theorem autoAssign_spec (agents : List AgentR) (tasks : List TaskR)
    (active : List (Option Nat)) :
    ((∃ a ∈ agents, a.role ≠ AgentRole.lead) →
      BatchOK agents (baseLoad agents active) tasks
        (autoAssign agents tasks (baseLoad agents active))) ∧
    (∀ l, agents.find? (fun a => a.role == AgentRole.lead) = some l →
      (∀ a ∈ agents, a.role = AgentRole.lead) →
      autoAssign agents tasks (baseLoad agents active) =
        tasks.map (fun t => ⟨t.id, l⟩)) := by
  constructor
  · intro h
    have hne : agents ≠ [] := by
      rcases h with ⟨a, ha, -⟩
      exact List.ne_nil_of_mem ha
    have hemp : agents.isEmpty = false := by
      cases agents with
      | nil => exact absurd rfl hne
      | cons a as => rfl
    simp only [autoAssign, hemp, Bool.false_eq_true, if_false]
    exact autoAssignGo_batch agents _ h tasks _
  · intro l hfind hall
    have hl : l ∈ agents := List.mem_of_find?_eq_some hfind
    have hne : agents ≠ [] := List.ne_nil_of_mem hl
    have hemp : agents.isEmpty = false := by
      cases agents with
      | nil => exact absurd rfl hne
      | cons a as => rfl
    simp only [autoAssign, hemp, Bool.false_eq_true, if_false, hfind]
    exact autoAssignGo_all_lead agents l hall tasks _

/-- C2 witness: a lead plus two backend agents, the backend agent 2
already loaded with one active task; the item titled Fix login API
bug is assigned to backend agent 3, the matching-role agent of lowest
load. -/
theorem autoAssign_spec_witness :
    (∃ a ∈ [AgentR.mk 1 AgentRole.lead, AgentR.mk 2 AgentRole.backend,
        AgentR.mk 3 AgentRole.backend], a.role ≠ AgentRole.lead) ∧
    BatchOK [⟨1, AgentRole.lead⟩, ⟨2, AgentRole.backend⟩, ⟨3, AgentRole.backend⟩]
      (baseLoad [⟨1, AgentRole.lead⟩, ⟨2, AgentRole.backend⟩,
        ⟨3, AgentRole.backend⟩] [some 2])
      [⟨10, "Fix login API bug"⟩]
      (autoAssign [⟨1, AgentRole.lead⟩, ⟨2, AgentRole.backend⟩,
        ⟨3, AgentRole.backend⟩] [⟨10, "Fix login API bug"⟩]
        (baseLoad [⟨1, AgentRole.lead⟩, ⟨2, AgentRole.backend⟩,
          ⟨3, AgentRole.backend⟩] [some 2])) ∧
    autoAssign [⟨1, AgentRole.lead⟩, ⟨2, AgentRole.backend⟩,
        ⟨3, AgentRole.backend⟩] [⟨10, "Fix login API bug"⟩]
        (baseLoad [⟨1, AgentRole.lead⟩, ⟨2, AgentRole.backend⟩,
          ⟨3, AgentRole.backend⟩] [some 2]) =
      [⟨10, ⟨3, AgentRole.backend⟩⟩] := by
  refine ⟨by decide, ?_, by decide⟩
  exact (autoAssign_spec [⟨1, AgentRole.lead⟩, ⟨2, AgentRole.backend⟩,
    ⟨3, AgentRole.backend⟩] [⟨10, "Fix login API bug"⟩] [some 2]).1 (by decide)

/-- C10: the preferred role of a work item is the role of the first
ROLE_MAP entry, in table definition order, whose keyword occurs as a
substring of the lowercased title; table order rather than position
in the title decides (a title with both test and api maps to
backend because api comes first in the table), and keywords match
inside longer words (titles containing build or guide map to
frontend through the substring ui). -/
theorem preferredRole_firstMatch :
    (∀ (title k : String) (r : AgentRole) (i : Nat) (hi : i < roleMap.length),
        roleMap.get ⟨i, hi⟩ = (k, r) →
        containsKeyword k title = true →
        (∀ j (hj : j < i),
          containsKeyword (roleMap.get ⟨j, Nat.lt_trans hj hi⟩).fst title = false) →
        preferredRole title = some r) ∧
    preferredRole "Add test coverage for api" = some AgentRole.backend ∧
    preferredRole "Fix build pipeline" = some AgentRole.frontend ∧
    preferredRole "Write user guide" = some AgentRole.frontend := by
  refine ⟨?_, by decide, by decide, by decide⟩
  intro title k r i hi hget hk hearlier
  have hq : (fun kv => containsKeyword kv.fst title) (roleMap.get ⟨i, hi⟩) = true := by
    rw [hget]; exact hk
  have hfind := find?_eq_of_first roleMap
    (fun kv => containsKeyword kv.fst title) i hi hq (fun j hj => hearlier j hj)
  simp only [preferredRole, hfind]
  rw [hget]
  rfl

/-- C10 witness: the first-match rule applied to the table entry
server at index 2, whose earlier keywords backend and api do not
occur in the title. -/
theorem preferredRole_firstMatch_witness :
    roleMap.get ⟨2, by decide⟩ = ("server", AgentRole.backend) ∧
    containsKeyword "server" "Deploy server now" = true ∧
    preferredRole "Deploy server now" = some AgentRole.backend := by
  refine ⟨by decide, by decide, ?_⟩
  refine preferredRole_firstMatch.1 "Deploy server now" "server" AgentRole.backend 2
    (by decide) (by decide) (by decide) ?_
  intro j hj
  match j, hj with
  | 0, _ =>
    exact (by decide : containsKeyword "backend" "Deploy server now" = false)
  | 1, _ =>
    exact (by decide : containsKeyword "api" "Deploy server now" = false)

/-- C3 witness: the theorem applied to a roster file that gains the
member b over a last-known set containing only a. -/
theorem pollConfig_memberJoined_witness :
    (WatcherConfigState.mk 0 ["a"]).configMtime < 1 ∧
    (∃ m, (pollConfig ⟨0, ["a"]⟩
        (some ⟨1, some [⟨"a", "Alice"⟩, ⟨"b", "Bob"⟩]⟩)).joined = [m] ∧
      m.agentId = "b") := by
  refine ⟨by decide, ?_⟩
  exact (pollConfig_memberJoined ⟨0, ["a"]⟩ ⟨1, some [⟨"a", "Alice"⟩, ⟨"b", "Bob"⟩]⟩
    [⟨"a", "Alice"⟩, ⟨"b", "Bob"⟩] "b" (by decide) rfl (by decide)).1

end ITHeroes
